import Mathlib

/-!
Verification development for the pasteproof detection-and-telemetry pipeline.

Shallow embedding of the four core components:
* the PII pattern matcher (`src/shared/pii-detector.ts`): built-in regex
  rules with an optional validator (Luhn), user-supplied custom rules,
  and `(type, value)` deduplication;
* the AI scan optimizer (`src/shared/ai-scan-optimizer.ts`): gating,
  fingerprint cache with 30s TTL, Levenshtein-based change detection;
* the detection event queue (`src/entrypoints/background.ts`): bounded
  queue with batch delivery and failed-batch requeue;
* the shared scan state (`src/shared/ai-scan-state.ts`): read-merge-write
  partial updates of a single status record.

JavaScript `RegExp` matching (`String.prototype.matchAll` with the `g`
flag) is embedded as a small backtracking matcher over a regex AST that
covers exactly the constructs the source patterns use: character classes,
concatenation, left-first alternation, greedy repetition and the `\b`
word-boundary assertion.  The matcher is written in continuation-passing
style with a fuel argument for termination; the fuel is chosen large
enough that it is never exhausted on the inputs considered here.
JavaScript numbers are embedded as `Int`/`Nat` (all arithmetic in scope
is exact on integers) and the similarity computation as `ℚ`.
-/

namespace PasteProof

/-! ## Regex AST and matcher (embedding of JS RegExp as used by the source) -/

inductive Regex where
  | emp : Regex
  | cls : (Char → Bool) → Regex
  | cat : Regex → Regex → Regex
  | alt : Regex → Regex → Regex
  | star : Regex → Regex
  | wb : Regex

/-- Size of a regex, used to compute a sufficient fuel bound. -/
def Regex.size : Regex → Nat
  | .emp => 1
  | .cls _ => 1
  | .wb => 1
  | .cat a b => a.size + b.size + 1
  | .alt a b => a.size + b.size + 1
  | .star a => a.size + 1

/-- JS `\w`: `[A-Za-z0-9_]`. -/
def isWordChar (c : Char) : Bool :=
  (65 ≤ c.toNat && c.toNat ≤ 90) || (97 ≤ c.toNat && c.toNat ≤ 122) ||
  (48 ≤ c.toNat && c.toNat ≤ 57) || c == '_'

/-- JS `\b` word-boundary test at position `i` of `s`. -/
def wordBoundary (s : List Char) (i : Nat) : Bool :=
  let prevW := match i with
    | 0 => false
    | j + 1 => match s[j]? with
      | some c => isWordChar c
      | none => false
  let nextW := match s[i]? with
    | some c => isWordChar c
    | none => false
  prevW != nextW

/-- Backtracking matcher in continuation-passing style.  `mtch fuel r s i k`
tries to match `r` in `s` starting at position `i`; on each way the match
can succeed it calls the continuation `k` with the end position, taking
alternatives left-first and repetition greedily (the JS backtracking
order).  The `star` case only iterates on strict progress, as JS does. -/
def mtch : Nat → Regex → List Char → Nat → (Nat → Option Nat) → Option Nat
  | 0, _, _, _, _ => none
  | _ + 1, .emp, _, i, k => k i
  | _ + 1, .cls p, s, i, k =>
      match s[i]? with
      | some c => if p c then k (i + 1) else none
      | none => none
  | fuel + 1, .cat a b, s, i, k => mtch fuel a s i (fun j => mtch fuel b s j k)
  | fuel + 1, .alt a b, s, i, k =>
      match mtch fuel a s i k with
      | some e => some e
      | none => mtch fuel b s i k
  | fuel + 1, .star a, s, i, k =>
      match mtch fuel a s i
          (fun j => if i < j then mtch fuel (.star a) s j k else none) with
      | some e => some e
      | none => k i
  | _ + 1, .wb, s, i, k => if wordBoundary s i then k i else none

/-- Fuel sufficient for `mtch` on `r` over `s` (bounds the backtracking depth). -/
def mtchFuel (r : Regex) (s : List Char) : Nat :=
  (s.length + 2) * (r.size + 2)

/-- First match of `r` starting at a position `≥ i` (the search `RegExp.exec`
performs from `lastIndex`): returns `(start, end)` of the leftmost match. -/
def execFrom (r : Regex) (s : List Char) : Nat → Nat → Option (Nat × Nat)
  | 0, _ => none
  | fuel + 1, i =>
      if i ≤ s.length then
        match mtch (mtchFuel r s) r s i some with
        | some e => some (i, e)
        | none => execFrom r s fuel (i + 1)
      else none

/-- The loop of `String.prototype.matchAll` with the `g` flag: collect
matches left to right, resuming from the end of the previous match and
advancing by one position after an empty match. -/
def matchAllGo (r : Regex) (s : List Char) : Nat → Nat → List (Nat × String)
  | 0, _ => []
  | fuel + 1, lastIndex =>
      match execFrom r s (s.length + 1 - lastIndex) lastIndex with
      | none => []
      | some (p, e) =>
          let value : String := ⟨(s.drop p).take (e - p)⟩
          (p, value) :: matchAllGo r s fuel (if p < e then e else p + 1)

/-- `text.matchAll(regex)` for a global regex: list of `(index, match[0])`. -/
def matchAllR (r : Regex) (text : String) : List (Nat × String) :=
  matchAllGo r text.data (text.data.length + 1) 0

/-! Derived regex forms (greedy, matching the JS operators). -/

/-- `r?` (greedy). -/
def Regex.opt (r : Regex) : Regex := .alt r .emp

/-- `r+` (greedy). -/
def Regex.plus (r : Regex) : Regex := .cat r (.star r)

/-- `r{n}`. -/
def Regex.rep : Regex → Nat → Regex
  | _, 0 => .emp
  | r, n + 1 => .cat r (Regex.rep r n)

/-- `r{0,n}` (greedy). -/
def Regex.repUpTo : Regex → Nat → Regex
  | _, 0 => .emp
  | r, n + 1 => .alt (.cat r (Regex.repUpTo r n)) .emp

/-- `r{n,m}` (greedy). -/
def Regex.repRange (r : Regex) (n m : Nat) : Regex :=
  .cat (r.rep n) (r.repUpTo (m - n))

/-- `r{n,}` (greedy). -/
def Regex.repAtLeast (r : Regex) (n : Nat) : Regex :=
  .cat (r.rep n) (.star r)

/-- A literal character. -/
def rchar (c : Char) : Regex := .cls (fun x => x == c)

/-- A literal character under the `i` flag (`c` given in lowercase). -/
def rcharCI (c : Char) : Regex := .cls (fun x => x.toLower == c)

/-- A literal string. -/
def rstr (cs : String) : Regex :=
  cs.data.foldr (fun c acc => .cat (rchar c) acc) .emp

/-- A literal string under the `i` flag (given in lowercase). -/
def rstrCI (cs : String) : Regex :=
  cs.data.foldr (fun c acc => .cat (rcharCI c) acc) .emp

/-- Sequence of regexes (concatenation of a list). -/
def rseq (rs : List Regex) : Regex := rs.foldr .cat .emp

/-! ## Character classes used by the built-in patterns -/

/-- `\d`. -/
def isDigitChar (c : Char) : Bool := 48 ≤ c.toNat && c.toNat ≤ 57

/-- JS `\s` (ASCII whitespace, NBSP and BOM; the source texts are ASCII). -/
def isJsSpace (c : Char) : Bool :=
  c == ' ' || c == '\t' || c == '\n' || c == '\r' ||
  c.toNat == 11 || c.toNat == 12 || c.toNat == 160 || c.toNat == 0xfeff

/-- ASCII letter. -/
def isAsciiLetter (c : Char) : Bool :=
  (65 ≤ c.toNat && c.toNat ≤ 90) || (97 ≤ c.toNat && c.toNat ≤ 122)

def rdigit : Regex := .cls isDigitChar

/-- `[\s-]`. -/
def sepSpaceDash : Regex := .cls (fun c => isJsSpace c || c == '-')

/-- `[\s.-]`. -/
def phoneSep : Regex := .cls (fun c => isJsSpace c || c == '.' || c == '-')

/-- `[_-]`. -/
def underscoreDash : Regex := .cls (fun c => c == '_' || c == '-')

/-- `[:\s]`. -/
def colonSpace : Regex := .cls (fun c => c == ':' || isJsSpace c)

/-- `['"]`. -/
def quoteCls : Regex := .cls (fun c => c == '\'' || c == '"')

/-- `[A-Za-z0-9._%+-]` (email local part). -/
def emailLocalChar (c : Char) : Bool :=
  isAsciiLetter c || isDigitChar c || c == '.' || c == '_' || c == '%' ||
  c == '+' || c == '-'

/-- `[A-Za-z0-9.-]` (email domain). -/
def emailDomainChar (c : Char) : Bool :=
  isAsciiLetter c || isDigitChar c || c == '.' || c == '-'

/-- `[A-Z|a-z]` — note the literal `|` inside the class, as in the source. -/
def emailTldChar (c : Char) : Bool :=
  (65 ≤ c.toNat && c.toNat ≤ 90) || c == '|' || (97 ≤ c.toNat && c.toNat ≤ 122)

/-- `[a-zA-Z0-9_\-]` (API key body). -/
def apiKeyChar (c : Char) : Bool :=
  isAsciiLetter c || isDigitChar c || c == '_' || c == '-'

/-! ## Built-in patterns (`BUILT_IN_PATTERNS` of `pii-detector.ts`) -/

/-- `/\b\d{4}[\s-]?\d{4}[\s-]?\d{4}[\s-]?\d{4}\b/g` -/
def creditCardRegex : Regex :=
  rseq [.wb, rdigit.rep 4, sepSpaceDash.opt, rdigit.rep 4, sepSpaceDash.opt,
        rdigit.rep 4, sepSpaceDash.opt, rdigit.rep 4, .wb]

/-- `/\b\d{3}-\d{2}-\d{4}\b/g` -/
def ssnRegex : Regex :=
  rseq [.wb, rdigit.rep 3, rchar '-', rdigit.rep 2, rchar '-', rdigit.rep 4, .wb]

/-- `/\b[A-Za-z0-9._%+-]+@[A-Za-z0-9.-]+\.[A-Z|a-z]{2,}\b/g` -/
def emailRegex : Regex :=
  rseq [.wb, (Regex.cls emailLocalChar).plus, rchar '@',
        (Regex.cls emailDomainChar).plus, rchar '.',
        (Regex.cls emailTldChar).repAtLeast 2, .wb]

/-- `/\b(\+\d{1,3}[\s-]?)?\(?\d{3}\)?[\s.-]?\d{3}[\s.-]?\d{4}\b/g`
(the capture group does not affect `match[0]` and is embedded as plain
grouping). -/
def phoneRegex : Regex :=
  rseq [.wb,
        (rseq [rchar '+', rdigit.repRange 1 3, sepSpaceDash.opt]).opt,
        (rchar '(').opt, rdigit.rep 3, (rchar ')').opt, phoneSep.opt,
        rdigit.rep 3, phoneSep.opt, rdigit.rep 4, .wb]

/-- `/\b(?:api[_-]?key|token|secret)[_-]?[:\s]*['"]*([a-zA-Z0-9_\-]{20,})['"]*\b/gi` -/
def apiKeyRegex : Regex :=
  rseq [.wb,
        .alt (rseq [rstrCI "api", underscoreDash.opt, rstrCI "key"])
             (.alt (rstrCI "token") (rstrCI "secret")),
        underscoreDash.opt, colonSpace.star, quoteCls.star,
        (Regex.cls apiKeyChar).repAtLeast 20, quoteCls.star, .wb]

/-- `/\b(?:\d{1,3}\.){3}\d{1,3}\b/g` -/
def ipAddressRegex : Regex :=
  rseq [.wb, (rseq [rdigit.repRange 1 3, rchar '.']).rep 3,
        rdigit.repRange 1 3, .wb]

/-! ## Luhn check (`luhnCheck` of `pii-detector.ts`) -/

/-- One doubled digit in the Luhn sum: `digit *= 2; if (digit > 9) digit -= 9`. -/
def luhnDouble (d : Nat) : Nat :=
  let x := d * 2
  if x > 9 then x - 9 else x

/-- `luhnCheck(cardNumber)`: strip non-digits (`replace(/\D/g, '')`), reject
lengths outside 13–19, then walk the digits from the right with a toggling
`isEven` flag (initially `false`), doubling every second digit, and accept
iff the sum is divisible by 10. -/
def luhnCheck (cardNumber : String) : Bool :=
  let digits := cardNumber.data.filter isDigitChar
  if digits.length < 13 || digits.length > 19 then false
  else
    let sum := (digits.reverse.foldl
      (fun (acc : Nat × Bool) c =>
        let d := c.toNat - 48
        let d' := if acc.2 then luhnDouble d else d
        (acc.1 + d', !acc.2)) (0, false)).1
    sum % 10 == 0

/-! ## Data model of the detector -/

/-- A built-in rule: `type`, compiled regex, optional validator. -/
structure BuiltInPattern where
  type : String
  regex : Regex
  validate : Option (String → Bool)

def BUILT_IN_PATTERNS : List BuiltInPattern :=
  [⟨"CREDIT_CARD", creditCardRegex, some luhnCheck⟩,
   ⟨"SSN", ssnRegex, none⟩,
   ⟨"EMAIL", emailRegex, none⟩,
   ⟨"PHONE", phoneRegex, none⟩,
   ⟨"API_KEY", apiKeyRegex, none⟩,
   ⟨"IP_ADDRESS", ipAddressRegex, none⟩]

/-- A user-defined custom pattern.  The source stores `pattern` as a string
and compiles it with `new RegExp(p.pattern, 'gi')` inside `detectPii`; the
embedding carries the outcome of that compilation: `some r` for an
expression that compiles to `r`, `none` for a malformed expression (the
`new RegExp` call throws). -/
structure CustomPattern where
  id : String
  name : String
  pattern : Option Regex
  pattern_type : String
  is_active : Bool := true

/-- One detected occurrence (`DetectionResult` of `pii-detector.ts`). -/
structure DetectionResult where
  type : String
  value : String
  start : Option Nat := none
  «end» : Option Nat := none
  confidence : Option ℚ := none
  patternName : Option String := none
  deriving DecidableEq, Repr

/-- `end: match.index ? match.index + value.length : undefined` — the end
offset is only set when the index is truthy, i.e. nonzero. -/
def mkEnd (index : Nat) (value : String) : Option Nat :=
  if index == 0 then none else some (index + value.length)

/-- The built-in half of `detectPii`: for each pattern, all `matchAll`
matches, dropping a match when a validator exists and rejects it. -/
def builtinResults (text : String) : List DetectionResult :=
  BUILT_IN_PATTERNS.flatMap (fun p =>
    (matchAllR p.regex text).filterMap (fun m =>
      match p.validate with
      | some v =>
          if v m.2 then
            some { type := p.type, value := m.2, start := some m.1,
                   «end» := mkEnd m.1 m.2 }
          else none
      | none =>
          some { type := p.type, value := m.2, start := some m.1,
                 «end» := mkEnd m.1 m.2 }))

/-- The custom half of `detectPii`: each active custom pattern is compiled
fresh; a malformed pattern (compilation throws) is caught and contributes
nothing; matches carry `confidence = 0.9` and the rule name. -/
def customResults (customs : List CustomPattern) (text : String) :
    List DetectionResult :=
  customs.flatMap (fun cp =>
    match cp.pattern with
    | none => []
    | some r =>
        (matchAllR r text).map (fun m =>
          { type := cp.pattern_type, value := m.2, start := some m.1,
            «end» := mkEnd m.1 m.2, confidence := some (9 / 10),
            patternName := some cp.name }))

/-- `(type, value)` key equality used by the dedup step. -/
def sameKey (a b : DetectionResult) : Bool :=
  a.type == b.type && a.value == b.value

/-- JS `Array.prototype.filter` with an index-aware callback. -/
def filterWithIdx (f : DetectionResult → Nat → Bool) :
    List DetectionResult → Nat → List DetectionResult
  | [], _ => []
  | r :: rs, i =>
      if f r i then r :: filterWithIdx f rs (i + 1)
      else filterWithIdx f rs (i + 1)

/-- The dedup step of `detectPii`:
`results.filter((result, index, self) => index === self.findIndex(r => r.type === result.type && r.value === result.value))`. -/
def dedupResults (results : List DetectionResult) : List DetectionResult :=
  filterWithIdx
    (fun result index => results.findIdx (fun r => sameKey r result) == index)
    results 0

/-- `detectPii(text)`, parameterised by the module-level list of active
custom patterns.  Empty text short-circuits to `[]`. -/
def detectPii (customs : List CustomPattern) (text : String) :
    List DetectionResult :=
  if text.length == 0 then []
  else dedupResults (builtinResults text ++ customResults customs text)

/-! ## AI scan optimizer (`ai-scan-optimizer.ts`)

The class is embedded as explicit state passing: the private `cache`
`Map<string, ScanCache>` becomes an association list (first entry with a
key wins, as in a JS `Map`), `Date.now()` becomes an explicit `now : Int`
argument, and the stored `detections: any[]` payload is a type
parameter `α`. -/

def CACHE_DURATION : Int := 30000
def MIN_TEXT_LENGTH : Nat := 10
def MAX_TEXT_LENGTH : Nat := 5000
def SIMILARITY_THRESHOLD : ℚ := 0.85

/-- ToInt32: wrap an integer to the signed 32-bit range (the effect of the
JS bitwise operators used in `hashText`). -/
def toInt32 (n : Int) : Int := (n + 2 ^ 31) % 2 ^ 32 - 2 ^ 31

/-- One step of `hashText`'s loop:
`hash = (hash << 5) - hash + char; hash = hash & hash`. -/
def hashStep (h : Int) (c : Char) : Int :=
  toInt32 (toInt32 (h * 32) - h + c.toNat)

/-- Digit of a base-36 number, lowercase as JS `toString(36)` produces. -/
def base36Char (n : Nat) : Char :=
  if n < 10 then Char.ofNat (48 + n) else Char.ofNat (87 + n)

/-- Base-36 digits of a natural number (most significant first). -/
def natToBase36 (n : Nat) : List Char :=
  if _h : n < 36 then [base36Char n]
  else natToBase36 (n / 36) ++ [base36Char (n % 36)]
  decreasing_by exact Nat.div_lt_self (by omega) (by omega)

/-- JS `Number.prototype.toString(36)` on a 32-bit integer value. -/
def intToBase36 (n : Int) : String :=
  if n < 0 then ⟨'-' :: natToBase36 n.natAbs⟩ else ⟨natToBase36 n.toNat⟩

/-- `hashText(text)`: the 32-bit rolling hash, rendered in base 36. -/
def hashText (text : String) : String :=
  intToBase36 (text.data.foldl hashStep 0)

/-- A cache entry (`ScanCache`). -/
structure ScanCache (α : Type) where
  hash : String
  detections : List α
  timestamp : Int
  deriving DecidableEq

/-- The optimizer's private cache table. -/
structure OptimizerState (α : Type) where
  cache : List (String × ScanCache α)
  deriving DecidableEq

/-- `Map.prototype.set`: replace the entry with this key, else append. -/
def mapSet {α : Type} (k : String) (v : ScanCache α) :
    List (String × ScanCache α) → List (String × ScanCache α)
  | [] => [(k, v)]
  | (k', v') :: rest =>
      if k' == k then (k, v) :: rest else (k', v') :: mapSet k v rest

/-- `Map.prototype.delete`. -/
def mapDelete {α : Type} (k : String) :
    List (String × ScanCache α) → List (String × ScanCache α)
  | [] => []
  | (k', v') :: rest =>
      if k' == k then rest else (k', v') :: mapDelete k rest

/-- `getCachedResult(text)`: exact-fingerprint lookup with lazy expiry.
Returns the result (`null` modeled as `none`) together with the updated
state.  In the not-found branch the source iterates over the cache
entries looking for "similar text" but the loop body `continue`s
unconditionally, so that branch computes nothing and leaves the cache
untouched. -/
def getCachedResult {α : Type} (now : Int) (text : String)
    (st : OptimizerState α) : Option (List α) × OptimizerState α :=
  let hash := hashText text
  match st.cache.lookup hash with
  | none => (none, st)
  | some cached =>
      if now - cached.timestamp > CACHE_DURATION then
        (none, ⟨mapDelete hash st.cache⟩)
      else
        (some cached.detections, st)

/-- `cleanCache()`: evict every entry older than the TTL. -/
def cleanCache {α : Type} (now : Int) (st : OptimizerState α) :
    OptimizerState α :=
  ⟨st.cache.filter (fun e => !(now - e.2.timestamp > CACHE_DURATION))⟩

/-- `cacheResult(text, detections)`: store under the fingerprint with the
current timestamp, then sweep expired entries. -/
def cacheResult {α : Type} (now : Int) (text : String) (detections : List α)
    (st : OptimizerState α) : OptimizerState α :=
  let hash := hashText text
  cleanCache now ⟨mapSet hash ⟨hash, detections, now⟩ st.cache⟩

/-- JS `String.prototype.trim`. -/
def jsTrim (text : String) : String :=
  ⟨((text.data.dropWhile isJsSpace).reverse.dropWhile isJsSpace).reverse⟩

/-- `new Set(text).size`: number of distinct characters. -/
def distinctCount (cs : List Char) : Nat :=
  (cs.foldl (fun acc c => if acc.contains c then acc else acc ++ [c]) []).length

/-- `shouldScan(text)`: reject too short / too long text, text whose
trimmed form is too short, and low-entropy text (fewer than 5 distinct
characters once longer than 20). -/
def shouldScan (text : String) : Bool :=
  if text.length < MIN_TEXT_LENGTH || text.length > MAX_TEXT_LENGTH then false
  else
    let trimmed := jsTrim text
    if trimmed.length < MIN_TEXT_LENGTH then false
    else
      let uniqueChars := distinctCount text.data
      if uniqueChars < 5 && text.length > 20 then false
      else true

/-- One row of the `levenshteinDistance` DP matrix after the first cell:
walks the second string with the previous row (`diag :: above :: rest`)
and the cell just computed to the left. -/
def levRowAux (c1 : Char) : List Char → Nat → List Nat → List Nat
  | [], _, _ => []
  | c2 :: cs, left, diag :: above :: rest =>
      let cell :=
        if c1 = c2 then diag
        else Nat.min (Nat.min (diag + 1) (left + 1)) (above + 1)
      cell :: levRowAux c1 cs cell (above :: rest)
  | _ :: _, _, _ => []

/-- Row `i` of the DP matrix: `matrix[i][0] = i`, then `levRowAux`. -/
def levRow (c1 : Char) (l2 : List Char) (i : Nat) (prev : List Nat) :
    List Nat :=
  i :: levRowAux c1 l2 i prev

/-- `levenshteinDistance(str1, str2)`: classic unit-cost edit distance via
the row-by-row DP of the source (row 0 is `0..len2`, row `i` is computed
from row `i-1`; the answer is `matrix[len1][len2]`). -/
def levenshteinDistance (str1 str2 : String) : Nat :=
  let l2 := str2.data
  let row0 : List Nat := List.range (l2.length + 1)
  let final := (str1.data.foldl
    (fun (st : List Nat × Nat) c1 => (levRow c1 l2 (st.2 + 1) st.1, st.2 + 1))
    (row0, 0)).1
  final.getLastD 0

/-- `calculateSimilarity(text1, text2)`:
`1 - distance / max(len1, len2)`, and `1.0` when both are empty. -/
def calculateSimilarity (text1 text2 : String) : ℚ :=
  let maxLen := Nat.max text1.length text2.length
  if maxLen == 0 then 1
  else 1 - (levenshteinDistance text1 text2 : ℚ) / (maxLen : ℚ)

/-- `hasSignificantChange(oldText, newText)`: true when the length delta
exceeds 20 or the similarity falls below the 0.85 threshold. -/
def hasSignificantChange (oldText newText : String) : Bool :=
  let lengthDiff := ((oldText.length : Int) - (newText.length : Int)).natAbs
  if lengthDiff > 20 then true
  else if calculateSimilarity oldText newText < SIMILARITY_THRESHOLD then true
  else false

/-! ## Detection event queue (`background.ts`)

`DetectionQueue` is embedded as explicit state passing.  The external
collector call `apiClient.logDetectionsBatch(batch)` is modeled by a
parameter `send : List QueuedDetection → Bool` (`true` = delivery
succeeded, `false` = it threw), and `getApiClient()` by a `hasClient`
flag.  `Date.now()` is an explicit `now` argument. -/

inductive DetectionAction where
  | detected | blocked | anonymized
  deriving DecidableEq, Repr

/-- A queued telemetry event (`QueuedDetection`).  The free-form
`metadata` record is opaque to the queue and embedded as an optional
string payload. -/
structure QueuedDetection where
  type : String
  domain : String
  action : DetectionAction
  metadata : Option String := none
  timestamp : Int
  deriving DecidableEq, Repr

/-- `Omit<QueuedDetection, 'timestamp'>`: the caller-supplied part of an
event; `add` assigns the timestamp. -/
structure DetectionInput where
  type : String
  domain : String
  action : DetectionAction
  metadata : Option String := none
  deriving DecidableEq, Repr

structure QueueState where
  queue : List QueuedDetection
  processing : Bool
  deriving DecidableEq, Repr

def MAX_QUEUE_SIZE : Nat := 100
def BATCH_SIZE : Nat := 10

/-- The drain loop of `processQueue`: repeatedly `splice` a batch of up to
10 events off the head and attempt delivery; on failure `unshift` the
failed batch back onto the front and `break`. -/
def drainLoop (send : List QueuedDetection → Bool) :
    List QueuedDetection → List QueuedDetection
  | [] => []
  | d :: rest =>
      let batch := (d :: rest).take BATCH_SIZE
      if send batch then drainLoop send ((d :: rest).drop BATCH_SIZE)
      else batch ++ (d :: rest).drop BATCH_SIZE
  termination_by q => q.length
  decreasing_by simp [List.length_drop, BATCH_SIZE]; omega

/-- `processQueue()`: no-op when already processing or empty; when no api
client is configured, release the `processing` flag and return; otherwise
drain in batches.  The `finally` block always clears `processing`. -/
def processQueue (hasClient : Bool) (send : List QueuedDetection → Bool)
    (st : QueueState) : QueueState :=
  if st.processing || st.queue.isEmpty then st
  else if !hasClient then { st with processing := false }
  else { queue := drainLoop send st.queue, processing := false }

/-- The synchronous part of `add(detection)`: push the event with its
assigned timestamp, then truncate to the most recent
`MAX_QUEUE_SIZE` events (`slice(-MAX_QUEUE_SIZE)`). -/
def enqueueEvent (now : Int) (d : DetectionInput) (st : QueueState) :
    QueueState :=
  let q := st.queue ++
    [{ type := d.type, domain := d.domain, action := d.action,
       metadata := d.metadata, timestamp := now }]
  { st with
    queue := if q.length > MAX_QUEUE_SIZE then q.drop (q.length - MAX_QUEUE_SIZE)
             else q }

/-- `add(detection)`: enqueue with timestamp, truncate, then trigger a
drain attempt. -/
def addDetection (hasClient : Bool) (send : List QueuedDetection → Bool)
    (now : Int) (d : DetectionInput) (st : QueueState) : QueueState :=
  processQueue hasClient send (enqueueEvent now d st)

/-! ## Shared scan state (`ai-scan-state.ts`)

`setAiScanState(state: Partial<AiScanState>)` spreads the patch over the
current record: a key present in the patch overrides the field (even when
its value is explicitly `undefined`), an absent key leaves the field
alone.  The patch is embedded with one `Option` layer per key (`none` =
key absent), on top of the `Option` that embeds `undefined` for the
optional fields.  Storage reads default to `{idle, detectionCount: 0}`. -/

inductive AiScanStatus where
  | idle | scanning | success | error
  deriving DecidableEq, Repr

structure AiScanState where
  status : AiScanStatus
  detectionCount : Nat
  lastScanTime : Option Int := none
  error : Option String := none
  currentDomain : Option String := none
  textPreview : Option String := none
  deriving DecidableEq, Repr

/-- `Partial<AiScanState>` where key presence matters. -/
structure AiScanStatePatch where
  status : Option AiScanStatus := none
  detectionCount : Option Nat := none
  lastScanTime : Option (Option Int) := none
  error : Option (Option String) := none
  currentDomain : Option (Option String) := none
  textPreview : Option (Option String) := none

/-- The default state `getAiScanState` returns when storage has no record
(or reading fails). -/
def defaultAiScanState : AiScanState :=
  { status := .idle, detectionCount := 0 }

/-- `setAiScanState(state)`: read the current record (defaulting), merge
the patch over it (`{...currentState, ...state}`), and return the record
that is persisted and broadcast to listeners. -/
def setAiScanState (patch : AiScanStatePatch) (stored : Option AiScanState) :
    AiScanState :=
  let currentState := stored.getD defaultAiScanState
  { status := patch.status.getD currentState.status,
    detectionCount := patch.detectionCount.getD currentState.detectionCount,
    lastScanTime := patch.lastScanTime.getD currentState.lastScanTime,
    error := patch.error.getD currentState.error,
    currentDomain := patch.currentDomain.getD currentState.currentDomain,
    textPreview := patch.textPreview.getD currentState.textPreview }

/-- `startAiScan(domain?, textPreview?)`: the patch literal sets `status`,
`currentDomain`, `textPreview` (possibly to `undefined`) and clears
`error`. -/
def startAiScan (domain textPreview : Option String)
    (stored : Option AiScanState) : AiScanState :=
  setAiScanState
    { status := some .scanning, currentDomain := some domain,
      textPreview := some textPreview, error := some none } stored

/-- `completeAiScan(detectionCount)`. -/
def completeAiScan (detectionCount : Nat) (now : Int)
    (stored : Option AiScanState) : AiScanState :=
  setAiScanState
    { status := some .success, detectionCount := some detectionCount,
      lastScanTime := some (some now), error := some none } stored

/-- `failAiScan(error)`: the patch literal contains exactly the keys
`status`, `error`, `lastScanTime`. -/
def failAiScan (error : String) (now : Int) (stored : Option AiScanState) :
    AiScanState :=
  setAiScanState
    { status := some .error, error := some (some error),
      lastScanTime := some (some now) } stored

/-- `resetAiScanState()`. -/
def resetAiScanState (stored : Option AiScanState) : AiScanState :=
  setAiScanState
    { status := some .idle, detectionCount := some 0, error := some none }
    stored

/-! ## Auxiliary definitions for the statements below -/

/-- The similarity measure in the words of the specification:
`1 - distance / max(len1, len2)`, with similarity `1.0` defined when both
strings are empty.  Stated separately from `calculateSimilarity` so the
optimizer's code can be compared against the spec's formula. -/
def specSimilarity (text1 text2 : String) : ℚ :=
  if text1.length = 0 ∧ text2.length = 0 then 1
  else 1 - (levenshteinDistance text1 text2 : ℚ) / (Nat.max text1.length text2.length : ℚ)

/-- A concrete batch of ten distinct queued events. -/
def sampleBatch10 : List QueuedDetection :=
  (List.range 10).map
    (fun n => { type := "pii_detected", domain := "example.com",
                action := .detected, timestamp := (n : Int) })

/-- The single result `detectPii` produces on `"999-88-7777"`. -/
def ssnSample : DetectionResult :=
  { type := "SSN", value := "999-88-7777", start := some 0 }

/-- The single result `detectPii` produces on `"4111111111111111"`. -/
def ccSample : DetectionResult :=
  { type := "CREDIT_CARD", value := "4111111111111111", start := some 0 }

/-- A well-formed custom pattern (its expression compiles). -/
def goodCustomPattern : CustomPattern :=
  { id := "1", name := "employee id", pattern := some (rstr "EMP"),
    pattern_type := "CUSTOM" }

/-- A malformed custom pattern (its expression fails to compile). -/
def badCustomPattern : CustomPattern :=
  { id := "2", name := "broken", pattern := none, pattern_type := "CUSTOM" }

/-! # Theorems -/

/-! ## C4: `shouldScan` gating -/

/-- C4.  `shouldScan(text)` returns false exactly when the text is shorter
than the minimum length (10), longer than the maximum length (5000),
shorter than the minimum after trimming whitespace, or has fewer than 5
distinct characters while being longer than 20 characters; and
`shouldScan("")`, `shouldScan("a")` and `shouldScan` of 22 `a`s are
false while `shouldScan("My email is a@b.com")` is true. -/
theorem shouldScan_spec :
    (∀ text : String,
      shouldScan text = true ↔
        ¬(text.length < 10 ∨ 5000 < text.length ∨ (jsTrim text).length < 10 ∨
          (distinctCount text.data < 5 ∧ 20 < text.length))) ∧
    shouldScan "" = false ∧
    shouldScan "a" = false ∧
    shouldScan "aaaaaaaaaaaaaaaaaaaaaa" = false ∧
    shouldScan "My email is a@b.com" = true := by
  refine ⟨fun text => ?_, by decide, by decide, by decide, by decide⟩
  simp only [shouldScan, MIN_TEXT_LENGTH, MAX_TEXT_LENGTH]
  split_ifs with h1 h2 h3 <;> simp_all
  omega

/-! ## C6: `hasSignificantChange` -/

/-- C6.  `hasSignificantChange(oldText, newText)` is true exactly when the
absolute length difference exceeds 20 or the similarity
`1 - levenshtein / max(len1, len2)` (defined as `1.0` when both strings
are empty) is below `0.85`; in particular it is false on
`("hello world", "hello world!")` and true on
`("hello", "goodbye universe")`. -/
theorem hasSignificantChange_spec :
    (∀ oldText newText : String,
      hasSignificantChange oldText newText = true ↔
        (20 < ((oldText.length : Int) - (newText.length : Int)).natAbs ∨
         specSimilarity oldText newText < 0.85)) ∧
    hasSignificantChange "hello world" "hello world!" = false ∧
    hasSignificantChange "hello" "goodbye universe" = true := by
  refine ⟨fun o n => ?_, ?_, ?_⟩
  · have hsim : specSimilarity o n = calculateSimilarity o n := by
      simp only [specSimilarity, calculateSimilarity]
      by_cases h : o.length = 0 ∧ n.length = 0
      · have hmax : Nat.max o.length n.length = 0 :=
          Nat.max_eq_zero_iff.mpr ⟨h.1, h.2⟩
        simp [h, hmax]
      · have hmax : Nat.max o.length n.length ≠ 0 := by
          rw [Ne, Nat.max_eq_zero_iff]; exact h
        have hbeq : (Nat.max o.length n.length == 0) = false := by
          simpa using hmax
        simp [h, hbeq]
    rw [hsim]
    simp only [hasSignificantChange, SIMILARITY_THRESHOLD]
    split_ifs with h1 h2
    · simp only [true_iff]; exact Or.inl h1
    · simp only [true_iff]; exact Or.inr h2
    · simp only [Bool.false_eq_true, false_iff, not_or]; exact ⟨h1, h2⟩
  · have hl : levenshteinDistance "hello world" "hello world!" = 1 := by decide
    have h1 : ("hello world" : String).length = 11 := by decide
    have h2 : ("hello world!" : String).length = 12 := by decide
    have hmax : Nat.max 11 12 = 12 := by decide
    simp only [hasSignificantChange, calculateSimilarity, SIMILARITY_THRESHOLD,
      hl, h1, h2, hmax]
    norm_num
  · have hl : levenshteinDistance "hello" "goodbye universe" = 15 := by decide
    have h1 : ("hello" : String).length = 5 := by decide
    have h2 : ("goodbye universe" : String).length = 16 := by decide
    have hmax : Nat.max 5 16 = 16 := by decide
    simp only [hasSignificantChange, calculateSimilarity, SIMILARITY_THRESHOLD,
      hl, h1, h2, hmax]
    norm_num

/-! ## C9: `failAiScan` frame -/

/-- C9.  For every prior scan-state record, `fail(error)` sets
`status = error`, the `error` field and `lastScanTime`, and leaves every
other field — in particular `detectionCount`, `currentDomain` and
`textPreview` — unchanged; and `start()` followed by `fail("x")` yields a
record with status `error`, error `"x"`, and `detectionCount` equal to
its value before `start()`. -/
theorem failAiScan_spec :
    (∀ (st : AiScanState) (e : String) (t : Int),
      failAiScan e t (some st) =
        { st with status := .error, error := some e, lastScanTime := some t }) ∧
    (∀ (st : AiScanState) (d p : Option String) (e : String) (t : Int),
      (failAiScan e t (some (startAiScan d p (some st)))).status = .error ∧
      (failAiScan e t (some (startAiScan d p (some st)))).error = some e ∧
      (failAiScan e t (some (startAiScan d p (some st)))).detectionCount =
        st.detectionCount) := by
  constructor
  · intro st e t
    rfl
  · intro st d p e t
    exact ⟨rfl, rfl, rfl⟩

/-! ## Queue lemmas -/

theorem drainLoop_nil (send : List QueuedDetection → Bool) :
    drainLoop send [] = [] := by
  simp [drainLoop]

theorem drainLoop_fail (send : List QueuedDetection → Bool)
    (q : List QueuedDetection) (hq : q ≠ [])
    (hsend : send (q.take BATCH_SIZE) = false) : drainLoop send q = q := by
  match q with
  | [] => exact absurd rfl hq
  | d :: rest =>
    rw [drainLoop]
    simp only [hsend, Bool.false_eq_true, if_false, ite_false]
    exact List.take_append_drop _ _

theorem drainLoop_length_le_aux (send : List QueuedDetection → Bool) :
    ∀ (n : Nat) (q : List QueuedDetection), q.length = n →
      (drainLoop send q).length ≤ q.length := by
  intro n
  induction n using Nat.strong_induction_on with
  | _ n ih =>
    intro q hq
    match q with
    | [] => simp [drainLoop]
    | d :: rest =>
      rw [drainLoop]
      split
      · have hlt : ((d :: rest).drop BATCH_SIZE).length < n := by
          simp only [List.length_cons] at hq
          simp only [List.length_drop, List.length_cons, BATCH_SIZE]
          omega
        calc (drainLoop send ((d :: rest).drop BATCH_SIZE)).length
            ≤ ((d :: rest).drop BATCH_SIZE).length := ih _ hlt _ rfl
          _ ≤ (d :: rest).length := by simp [List.length_drop]
      · simp only [List.length_append, List.length_take, List.length_drop,
          List.length_cons]
        omega

theorem drainLoop_length_le (send : List QueuedDetection → Bool)
    (q : List QueuedDetection) : (drainLoop send q).length ≤ q.length :=
  drainLoop_length_le_aux send q.length q rfl

theorem processQueue_queue_length_le (hasClient : Bool)
    (send : List QueuedDetection → Bool) (st : QueueState) :
    (processQueue hasClient send st).queue.length ≤ st.queue.length := by
  simp only [processQueue]
  split_ifs <;> simp [drainLoop_length_le]

theorem enqueueEvent_length_le (now : Int) (d : DetectionInput)
    (st : QueueState) : (enqueueEvent now d st).queue.length ≤ MAX_QUEUE_SIZE := by
  simp only [enqueueEvent, MAX_QUEUE_SIZE]
  split_ifs with h <;>
    simp only [List.length_drop, List.length_append, List.length_cons,
      List.length_nil] at * <;>
    omega

/-! ## C7: failed batch delivery restores the queue -/

/-- C7.  When a batch delivery fails during a drain, the failed batch is
restored to the front of the queue in its original relative order, no
further batches are attempted in that pass, and the queue equals what it
was before the failed batch was removed: `drainLoop` returns its input
unchanged whenever delivery of the head batch fails, and `processQueue`
on a non-processing queue whose first batch fails leaves the queue
exactly as it was. -/
theorem processQueue_failure_spec :
    (∀ (send : List QueuedDetection → Bool) (q : List QueuedDetection),
      q ≠ [] → send (q.take BATCH_SIZE) = false → drainLoop send q = q) ∧
    (∀ (send : List QueuedDetection → Bool) (st : QueueState),
      st.processing = false → send (st.queue.take BATCH_SIZE) = false →
      processQueue true send st = { queue := st.queue, processing := false }) := by
  refine ⟨drainLoop_fail, fun send st hproc hsend => ?_⟩
  simp only [processQueue, hproc, Bool.false_or]
  cases hqe : st.queue.isEmpty with
  | false =>
    simp only [hqe, Bool.false_eq_true, if_false, Bool.not_true, ite_false]
    rw [drainLoop_fail send st.queue
      (by simpa [List.isEmpty_iff] using hqe) hsend]
  | true =>
    have hnil : st.queue = [] := by simpa [List.isEmpty_iff] using hqe
    simp only [hqe, if_true, ite_true]
    cases st with
    | mk q p =>
      simp_all

/-- C7 witness: a failing delivery of a concrete batch of 10 distinct
events leaves exactly those 10 events at the head of the queue, in their
original relative order. -/
theorem processQueue_failure_spec_witness :
    processQueue true (fun _ => false) ⟨sampleBatch10, false⟩ =
      { queue := sampleBatch10, processing := false } :=
  processQueue_failure_spec.2 (fun _ => false) ⟨sampleBatch10, false⟩ rfl rfl

/-! ## C8: the queue never exceeds 100 events -/

set_option maxRecDepth 20000 in
/-- C8.  After every `add(event)` the queue holds at most 100 events; when
no collector client is configured (so draining cannot remove anything)
the queue after `add` is exactly the most recent 100 events of
`old ++ [new]`, with the new event at the tail; and adding 101 events to
an empty queue retains exactly the 100 most recent. -/
theorem add_truncates_queue_spec :
    (∀ (hasClient : Bool) (send : List QueuedDetection → Bool) (now : Int)
       (d : DetectionInput) (st : QueueState),
      (addDetection hasClient send now d st).queue.length ≤ MAX_QUEUE_SIZE) ∧
    (∀ (send : List QueuedDetection → Bool) (now : Int) (d : DetectionInput)
       (st : QueueState),
      (addDetection false send now d st).queue =
        (st.queue ++
          [({ type := d.type, domain := d.domain, action := d.action,
              metadata := d.metadata, timestamp := now } : QueuedDetection)]).drop
          (st.queue.length + 1 - MAX_QUEUE_SIZE)) ∧
    ((List.range 101).foldl
        (fun st n => addDetection false (fun _ => false) (n : Int)
          { type := "t", domain := "d", action := .detected } st)
        ⟨[], false⟩).queue =
      ((List.range 101).drop 1).map
        (fun n => { type := "t", domain := "d", action := .detected,
                    timestamp := (n : Int) }) := by
  refine ⟨fun hasClient send now d st => ?_, fun send now d st => ?_,
    by decide⟩
  · exact le_trans (processQueue_queue_length_le _ _ _)
      (enqueueEvent_length_le _ _ _)
  · have hq : (addDetection false send now d st).queue =
        (enqueueEvent now d st).queue := by
      simp only [addDetection, processQueue, Bool.not_false, if_true, ite_true]
      split_ifs <;> rfl
    rw [hq]
    simp only [enqueueEvent, MAX_QUEUE_SIZE]
    have hlen : (st.queue ++
        [({ type := d.type, domain := d.domain, action := d.action,
            metadata := d.metadata, timestamp := now } : QueuedDetection)]).length =
        st.queue.length + 1 := by
      simp
    split_ifs with h
    · rw [hlen]
    · have h0 : st.queue.length + 1 - 100 = 0 := by
        rw [hlen] at h
        omega
      rw [h0, List.drop_zero]

/-! ## Cache (association-list) lemmas -/

theorem lookup_mapSet_self {α : Type} (k : String) (v : ScanCache α)
    (l : List (String × ScanCache α)) : (mapSet k v l).lookup k = some v := by
  induction l with
  | nil => simp [mapSet, List.lookup]
  | cons e rest ih =>
    obtain ⟨k', v'⟩ := e
    simp only [mapSet]
    split_ifs with h
    · simp [List.lookup, beq_self_eq_true]
    · simp only [List.lookup]
      have : (k == k') = false := by
        simp only [beq_eq_false_iff_ne]
        intro hkk
        exact h (by simp [hkk])
      simp [this, ih]

theorem lookup_filter_of_mem {α : Type} (p : String × ScanCache α → Bool)
    (l : List (String × ScanCache α)) (k : String) (v : ScanCache α)
    (hl : l.lookup k = some v) (hp : p (k, v) = true) :
    (l.filter p).lookup k = some v := by
  induction l with
  | nil => simp [List.lookup] at hl
  | cons e rest ih =>
    obtain ⟨k', v'⟩ := e
    simp only [List.lookup] at hl
    cases hkk : (k == k') with
    | false =>
      rw [hkk] at hl
      simp only [List.filter]
      cases hpe : p (k', v') with
      | false => exact ih hl
      | true =>
        simp only [List.lookup, hkk]
        exact ih hl
    | true =>
      rw [hkk] at hl
      have hk : k = k' := by simpa using hkk
      subst hk
      injection hl with hv
      subst hv
      simp only [List.filter, hp]
      simp [List.lookup, beq_self_eq_true]

theorem lookup_eq_none_of_not_mem {α : Type}
    (l : List (String × ScanCache α)) (k : String)
    (h : k ∉ l.map Prod.fst) : l.lookup k = none := by
  induction l with
  | nil => simp [List.lookup]
  | cons e rest ih =>
    obtain ⟨k', v'⟩ := e
    simp only [List.map, List.mem_cons, not_or] at h
    have : (k == k') = false := by simpa using h.1
    simp only [List.lookup, this]
    exact ih h.2

theorem mem_keys_mapSet {α : Type} (k x : String) (v : ScanCache α)
    (l : List (String × ScanCache α))
    (hx : x ∈ (mapSet k v l).map Prod.fst) : x = k ∨ x ∈ l.map Prod.fst := by
  induction l with
  | nil => simpa [mapSet] using hx
  | cons e rest ih =>
    obtain ⟨k', v'⟩ := e
    simp only [mapSet] at hx
    split_ifs at hx with h
    · simp only [List.map, List.mem_cons] at hx ⊢
      tauto
    · simp only [List.map, List.mem_cons] at hx ⊢
      rcases hx with hx | hx
      · tauto
      · rcases ih hx with hx | hx <;> tauto

theorem nodup_keys_mapSet {α : Type} (k : String) (v : ScanCache α)
    (l : List (String × ScanCache α)) (h : (l.map Prod.fst).Nodup) :
    ((mapSet k v l).map Prod.fst).Nodup := by
  induction l with
  | nil => simp [mapSet]
  | cons e rest ih =>
    obtain ⟨k', v'⟩ := e
    simp only [List.map, List.nodup_cons] at h
    simp only [mapSet]
    split_ifs with hk
    · have hk' : k' = k := by simpa using hk
      subst hk'
      simp only [List.map, List.nodup_cons]
      exact h
    · simp only [List.map, List.nodup_cons]
      refine ⟨fun hmem => ?_, ih h.2⟩
      rcases mem_keys_mapSet k k' v rest hmem with heq | hmem'
      · rw [heq] at hk
        simp at hk
      · exact h.1 hmem'

theorem nodup_keys_filter {α : Type} (p : String × ScanCache α → Bool)
    (l : List (String × ScanCache α)) (h : (l.map Prod.fst).Nodup) :
    ((l.filter p).map Prod.fst).Nodup :=
  ((l.filter_sublist).map Prod.fst).nodup h

theorem lookup_mapDelete_self {α : Type} (k : String)
    (l : List (String × ScanCache α)) (h : (l.map Prod.fst).Nodup) :
    (mapDelete k l).lookup k = none := by
  induction l with
  | nil => simp [mapDelete, List.lookup]
  | cons e rest ih =>
    obtain ⟨k', v'⟩ := e
    simp only [List.map, List.nodup_cons] at h
    simp only [mapDelete]
    split_ifs with hk
    · have hk' : k' = k := by simpa using hk
      subst hk'
      exact lookup_eq_none_of_not_mem rest k' h.1
    · have : (k == k') = false := by
        simp only [beq_eq_false_iff_ne]
        intro hkk
        exact hk (by simp [hkk])
      simp only [List.lookup, this]
      exact ih h.2

/-! ## C5: cache round-trip and TTL expiry -/

/-- C5.  `cacheResult(T, M)` followed immediately by `getCachedResult(T)`
returns exactly `M`; and once the entry's age exceeds the 30-second TTL,
`getCachedResult(T)` returns absent and the expired entry is removed from
the cache table (its fingerprint no longer resolves).  The cache table is
assumed to have no duplicate fingerprints, which holds for every table
the optimizer's operations construct. -/
theorem cache_roundtrip_ttl_spec {α : Type} (T : String) (M : List α)
    (st : OptimizerState α) (t t' : Int)
    (hnodup : (st.cache.map Prod.fst).Nodup) :
    (getCachedResult t T (cacheResult t T M st)).1 = some M ∧
    (t' - t > CACHE_DURATION →
      (getCachedResult t' T (cacheResult t T M st)).1 = none ∧
      ((getCachedResult t' T (cacheResult t T M st)).2).cache.lookup
        (hashText T) = none) := by
  have hset : (mapSet (hashText T) ⟨hashText T, M, t⟩ st.cache).lookup
      (hashText T) = some ⟨hashText T, M, t⟩ := lookup_mapSet_self _ _ _
  have hfresh : (fun (e : String × ScanCache α) =>
      !(t - e.2.timestamp > CACHE_DURATION)) (hashText T, ⟨hashText T, M, t⟩)
      = true := by
    simp [CACHE_DURATION]
  have hlook : (cacheResult t T M st).cache.lookup (hashText T) =
      some ⟨hashText T, M, t⟩ := by
    simp only [cacheResult, cleanCache]
    exact lookup_filter_of_mem _ _ _ _ hset hfresh
  have hnodup' : ((cacheResult t T M st).cache.map Prod.fst).Nodup := by
    simp only [cacheResult, cleanCache]
    exact nodup_keys_filter _ _ (nodup_keys_mapSet _ _ _ hnodup)
  constructor
  · simp only [getCachedResult, hlook]
    norm_num [CACHE_DURATION]
  · intro hexp
    simp only [getCachedResult, hlook]
    simp only [hexp, if_true, ite_true]
    exact ⟨trivial, lookup_mapDelete_self _ _ hnodup'⟩

/-- C5 witness: round-trip and expiry at concrete times on a concrete
cache. -/
theorem cache_roundtrip_ttl_spec_witness :
    (getCachedResult 0 "T" (cacheResult 0 "T" [(1 : Nat)] ⟨[]⟩)).1 =
      some [(1 : Nat)] ∧
    (getCachedResult 40000 "T" (cacheResult 0 "T" [(1 : Nat)] ⟨[]⟩)).1 =
      none ∧
    ((getCachedResult 40000 "T" (cacheResult 0 "T" [(1 : Nat)] ⟨[]⟩)).2).cache.lookup
      (hashText "T") = none := by
  have h := cache_roundtrip_ttl_spec (α := Nat) "T" [1] ⟨[]⟩ 0 40000
    (by simp)
  exact ⟨h.1, (h.2 (by decide)).1, (h.2 (by decide)).2⟩

/-! ## `findIdx` / `find?` auxiliary lemmas -/

theorem findIdx_get?_true {α : Type} (p : α → Bool) :
    ∀ (l : List α) (i : Nat) (a : α),
      l.findIdx p = i → l[i]? = some a → p a = true := by
  intro l
  induction l with
  | nil => intro i a _ hget; simp at hget
  | cons b t ih =>
    intro i a hidx hget
    rw [List.findIdx_cons] at hidx
    cases hb : p b with
    | true =>
      rw [hb] at hidx
      simp only [cond_true] at hidx
      subst hidx
      rw [List.getElem?_cons_zero] at hget
      injection hget with hget
      subst hget
      exact hb
    | false =>
      rw [hb] at hidx
      simp only [cond_false] at hidx
      subst hidx
      rw [List.getElem?_cons_succ] at hget
      exact ih _ _ rfl hget

theorem find?_of_findIdx {α : Type} (p : α → Bool) :
    ∀ (l : List α) (i : Nat) (a : α),
      l.findIdx p = i → l[i]? = some a → l.find? p = some a := by
  intro l
  induction l with
  | nil => intro i a _ hget; simp at hget
  | cons b t ih =>
    intro i a hidx hget
    rw [List.findIdx_cons] at hidx
    cases hb : p b with
    | true =>
      rw [hb] at hidx
      simp only [cond_true] at hidx
      subst hidx
      rw [List.getElem?_cons_zero] at hget
      injection hget with hget
      subst hget
      simp [List.find?, hb]
    | false =>
      rw [hb] at hidx
      simp only [cond_false] at hidx
      subst hidx
      rw [List.getElem?_cons_succ] at hget
      simp only [List.find?, hb]
      exact ih _ _ rfl hget

theorem findIdx_le_of_get? {α : Type} (p : α → Bool) :
    ∀ (l : List α) (i : Nat) (a : α),
      l[i]? = some a → p a = true → l.findIdx p ≤ i := by
  intro l
  induction l with
  | nil => intro i a hget; simp at hget
  | cons b t ih =>
    intro i a hget hp
    rw [List.findIdx_cons]
    cases hb : p b with
    | true => simp
    | false =>
      simp only [cond_false]
      match i with
      | 0 =>
        rw [List.getElem?_cons_zero] at hget
        injection hget with hget
        subst hget
        rw [hb] at hp
        exact absurd hp (by simp)
      | j + 1 =>
        rw [List.getElem?_cons_succ] at hget
        exact Nat.succ_le_succ (ih j a hget hp)

/-! ## `sameKey` lemmas -/

theorem sameKey_refl (a : DetectionResult) : sameKey a a = true := by
  simp [sameKey]

theorem sameKey_pred_congr {a b : DetectionResult}
    (hab : sameKey a b = true) :
    (fun x => sameKey x a) = (fun x => sameKey x b) := by
  simp only [sameKey, Bool.and_eq_true, beq_iff_eq] at hab
  funext x
  simp only [sameKey, hab.1, hab.2]

/-! ## Lemmas about the dedup filter -/

theorem filterWithIdx_sublist (g : DetectionResult → Nat → Bool) :
    ∀ (S : List DetectionResult) (i : Nat),
      (filterWithIdx g S i).Sublist S := by
  intro S
  induction S with
  | nil => intro i; simp [filterWithIdx]
  | cons r rs ih =>
    intro i
    simp only [filterWithIdx]
    split_ifs
    · exact (ih (i + 1)).cons₂ r
    · exact (ih (i + 1)).cons r

theorem filterWithIdx_first_aux (L : List DetectionResult) :
    ∀ (S pre : List DetectionResult), L = pre ++ S →
      ∀ d ∈ filterWithIdx
          (fun result index =>
            L.findIdx (fun r => sameKey r result) == index) S pre.length,
        L.find? (fun r => sameKey r d) = some d := by
  intro S
  induction S with
  | nil => intro pre _ d hd; simp [filterWithIdx] at hd
  | cons r rs ih =>
    intro pre hL d hd
    have hL' : L = (pre ++ [r]) ++ rs := by simp [hL]
    have hlen : (pre ++ [r]).length = pre.length + 1 := by simp
    simp only [filterWithIdx] at hd
    split_ifs at hd with hkeep
    · rcases List.mem_cons.mp hd with rfl | hd'
      · have hidx : L.findIdx (fun x => sameKey x d) = pre.length := by
          simpa using hkeep
        have hget : L[pre.length]? = some d := by
          rw [hL, List.getElem?_append_right (le_refl pre.length)]
          simp
        exact find?_of_findIdx _ _ _ _ hidx hget
      · exact ih (pre ++ [r]) hL' d (by rw [hlen]; exact hd')
    · exact ih (pre ++ [r]) hL' d (by rw [hlen]; exact hd)

theorem filterWithIdx_ge_aux (L : List DetectionResult) :
    ∀ (S : List DetectionResult) (i : Nat),
      ∀ d ∈ filterWithIdx
          (fun result index =>
            L.findIdx (fun r => sameKey r result) == index) S i,
        i ≤ L.findIdx (fun r => sameKey r d) := by
  intro S
  induction S with
  | nil => intro i d hd; simp [filterWithIdx] at hd
  | cons r rs ih =>
    intro i d hd
    simp only [filterWithIdx] at hd
    split_ifs at hd with hkeep
    · rcases List.mem_cons.mp hd with rfl | hd'
      · have : L.findIdx (fun x => sameKey x d) = i := by simpa using hkeep
        omega
      · have := ih (i + 1) d hd'
        omega
    · have := ih (i + 1) d hd
      omega

theorem filterWithIdx_pairwise_aux (L : List DetectionResult) :
    ∀ (S : List DetectionResult) (i : Nat),
      (filterWithIdx
        (fun result index =>
          L.findIdx (fun r => sameKey r result) == index) S i).Pairwise
        (fun a b => sameKey a b = false) := by
  intro S
  induction S with
  | nil => intro i; simp [filterWithIdx]
  | cons r rs ih =>
    intro i
    simp only [filterWithIdx]
    split_ifs with hkeep
    · refine List.Pairwise.cons (fun d hd => ?_) (ih (i + 1))
      cases hsk : sameKey r d with
      | false => rfl
      | true =>
        exfalso
        have hcong := sameKey_pred_congr hsk
        have hge := filterWithIdx_ge_aux L rs (i + 1) d hd
        have hkeep' : L.findIdx (fun x => sameKey x r) = i := by
          simpa using hkeep
        rw [hcong] at hkeep'
        omega
    · exact ih (i + 1)

theorem filterWithIdx_cover_aux (L : List DetectionResult) :
    ∀ (S pre : List DetectionResult), L = pre ++ S →
      ∀ x ∈ S, pre.length ≤ L.findIdx (fun r => sameKey r x) →
        ∃ d ∈ filterWithIdx
            (fun result index =>
              L.findIdx (fun r => sameKey r result) == index) S pre.length,
          sameKey d x = true := by
  intro S
  induction S with
  | nil => intro pre _ x hx; simp at hx
  | cons r rs ih =>
    intro pre hL x hx hge
    have hL' : L = (pre ++ [r]) ++ rs := by simp [hL]
    have hlen : (pre ++ [r]).length = pre.length + 1 := by simp
    have hgetr : L[pre.length]? = some r := by
      rw [hL, List.getElem?_append_right (le_refl pre.length)]
      simp
    rcases List.mem_cons.mp hx with rfl | hx'
    · -- the sought element is the head of the suffix
      have hle : L.findIdx (fun y => sameKey y x) ≤ pre.length :=
        findIdx_le_of_get? _ _ _ _ hgetr (sameKey_refl x)
      have hidx : L.findIdx (fun y => sameKey y x) = pre.length := by omega
      simp only [filterWithIdx]
      split_ifs with hkeep
      · exact ⟨x, List.mem_cons_self x _, sameKey_refl x⟩
      · exact absurd (by simpa using hidx) hkeep
    · rcases Nat.lt_or_ge pre.length (L.findIdx (fun y => sameKey y x))
        with hgt | hle
      · -- the first occurrence of this key lies strictly beyond the head
        obtain ⟨d, hd, hdx⟩ := ih (pre ++ [r]) hL' x hx' (by omega)
        rw [hlen] at hd
        simp only [filterWithIdx]
        split_ifs with hkeep
        · exact ⟨d, List.mem_cons_of_mem r hd, hdx⟩
        · exact ⟨d, hd, hdx⟩
      · -- the first occurrence is exactly the head element `r`
        have hidx : L.findIdx (fun y => sameKey y x) = pre.length := by omega
        have hrx : sameKey r x = true :=
          findIdx_get?_true (fun y => sameKey y x) L pre.length r hidx hgetr
        have hcong := sameKey_pred_congr hrx
        have hkeepr : L.findIdx (fun y => sameKey y r) = pre.length := by
          rw [hcong]
          exact hidx
        simp only [filterWithIdx]
        split_ifs with hkeep
        · exact ⟨r, List.mem_cons_self r _, hrx⟩
        · exact absurd (by simpa using hkeepr) hkeep

/-- Every element `detectPii` returns comes from the raw (pre-dedup)
result list. -/
theorem detectPii_subset_raw (customs : List CustomPattern) (text : String)
    (r : DetectionResult) (hr : r ∈ detectPii customs text) :
    r ∈ builtinResults text ++ customResults customs text := by
  unfold detectPii at hr
  split_ifs at hr with h
  · simp at hr
  · unfold dedupResults at hr
    exact (filterWithIdx_sublist _ _ _).subset hr

/-- Shape of every raw result: `start` is always the match index, and the
`end` offset is `mkEnd` of that index (absent exactly when the index is
0). -/
theorem raw_result_shape (customs : List CustomPattern) (text : String)
    (r : DetectionResult)
    (hr : r ∈ builtinResults text ++ customResults customs text) :
    ∃ i, r.start = some i ∧ r.«end» = mkEnd i r.value := by
  rcases List.mem_append.mp hr with h | h
  · simp only [builtinResults, List.mem_flatMap] at h
    obtain ⟨p, hp, hr'⟩ := h
    simp only [List.mem_filterMap] at hr'
    obtain ⟨m, hm, hg⟩ := hr'
    cases hpv : p.validate with
    | some v =>
      simp only [hpv] at hg
      split_ifs at hg with hval
      · injection hg with hg
        subst hg
        exact ⟨m.1, rfl, rfl⟩
    | none =>
      simp only [hpv] at hg
      injection hg with hg
      subst hg
      exact ⟨m.1, rfl, rfl⟩
  · simp only [customResults, List.mem_flatMap] at h
    obtain ⟨cp, hcp, hr'⟩ := h
    cases hpat : cp.pattern with
    | none => rw [hpat] at hr'; simp at hr'
    | some rx =>
      rw [hpat] at hr'
      simp only [List.mem_map] at hr'
      obtain ⟨m, hm, hg⟩ := hr'
      subst hg
      exact ⟨m.1, rfl, rfl⟩

/-! ## C2: deduplication by `(kind, matchedText)` -/

/-- C2.  The list `detectPii` returns contains no two matches with equal
`(type, value)` pair; it is a subsequence of the raw scan-order result
list; every returned match is the *first* raw occurrence of its key in
scan order; every raw match's key is represented in the output; and a
text with two occurrences of the identical value of the identical kind
yields exactly one match. -/
theorem detectPii_dedup_spec :
    (∀ (customs : List CustomPattern) (text : String),
      (detectPii customs text).Pairwise (fun a b => sameKey a b = false)) ∧
    (∀ (customs : List CustomPattern) (text : String),
      text.length ≠ 0 →
        (detectPii customs text).Sublist
          (builtinResults text ++ customResults customs text) ∧
        (∀ d ∈ detectPii customs text,
          (builtinResults text ++ customResults customs text).find?
            (fun r => sameKey r d) = some d) ∧
        (∀ x ∈ builtinResults text ++ customResults customs text,
          ∃ d ∈ detectPii customs text, sameKey d x = true)) ∧
    (detectPii [] "111-22-3333 111-22-3333").length = 1 := by
  refine ⟨fun customs text => ?_, fun customs text htext => ?_, by decide⟩
  · unfold detectPii
    split_ifs with h
    · simp
    · unfold dedupResults
      exact filterWithIdx_pairwise_aux _ _ 0
  · have hne : (text.length == 0) = false := by
      simpa using htext
    have hD : detectPii customs text =
        dedupResults (builtinResults text ++ customResults customs text) := by
      unfold detectPii
      simp [hne]
    refine ⟨?_, ?_, ?_⟩
    · rw [hD]
      unfold dedupResults
      exact filterWithIdx_sublist _ _ 0
    · intro d hd
      rw [hD] at hd
      unfold dedupResults at hd
      exact filterWithIdx_first_aux _ _ [] (by simp) d hd
    · intro x hx
      rw [hD]
      unfold dedupResults
      exact filterWithIdx_cover_aux _ _ [] (by simp) x hx (Nat.zero_le _)

/-- C2 witness: a text with the identical email twice yields exactly one
match, and the dedup guarantees instantiate on it. -/
theorem detectPii_dedup_spec_witness :
    (detectPii [] "Contact a@b.com and a@b.com please").Sublist
      (builtinResults "Contact a@b.com and a@b.com please" ++
        customResults [] "Contact a@b.com and a@b.com please") ∧
    (detectPii [] "Contact a@b.com and a@b.com please").length = 1 :=
  ⟨(detectPii_dedup_spec.2.1 [] "Contact a@b.com and a@b.com please"
      (by decide)).1,
   by decide⟩

/-! ## C10: end offsets and the truthiness of `match.index` -/

/-- C10.  Every match `detectPii` returns carries a start offset; a match
at position 0 has its end offset absent (the source computes `end` only
when `match.index` is truthy); and a match at any nonzero position `i`
carries `end = i + value.length`. -/
theorem detectPii_end_offset_spec :
    ∀ (customs : List CustomPattern) (text : String) (r : DetectionResult),
      r ∈ detectPii customs text →
      (∃ i, r.start = some i) ∧
      (r.start = some 0 → r.«end» = none) ∧
      (∀ i, r.start = some i → i ≠ 0 →
        r.«end» = some (i + r.value.length)) := by
  intro customs text r hr
  obtain ⟨i, hstart, hend⟩ :=
    raw_result_shape customs text r (detectPii_subset_raw customs text r hr)
  refine ⟨⟨i, hstart⟩, ?_, ?_⟩
  · intro h0
    rw [hstart] at h0
    injection h0 with h0
    subst h0
    rw [hend]
    rfl
  · intro j hj hjne
    rw [hstart] at hj
    injection hj with hj
    subst hj
    rw [hend]
    simp [mkEnd, hjne]

/-- C10 witness: the SSN match found at position 0 of `"999-88-7777"` has
`start = 0` and no end offset. -/
theorem detectPii_end_offset_spec_witness :
    (∃ i, ssnSample.start = some i) ∧
    (ssnSample.start = some 0 → ssnSample.«end» = none) ∧
    (∀ i, ssnSample.start = some i → i ≠ 0 →
      ssnSample.«end» = some (i + ssnSample.value.length)) :=
  detectPii_end_offset_spec [] "999-88-7777" ssnSample (by decide)

/-! ## C1: the Luhn validator gates `CREDIT_CARD` matches -/

/-- C1.  Whenever no active custom rule is typed `CREDIT_CARD`, every
`CREDIT_CARD` match `detectPii` reports passes the Luhn checksum; the
16-digit number `4111111111111111` is Luhn-valid and a text containing it
yields exactly one `CREDIT_CARD` match, while `4111111111111112` is
Luhn-invalid and the same-shaped text yields zero `CREDIT_CARD`
matches. -/
theorem detectPii_luhn_spec :
    (∀ (customs : List CustomPattern) (text : String),
      (∀ cp ∈ customs, cp.pattern_type ≠ "CREDIT_CARD") →
      ∀ r ∈ detectPii customs text, r.type = "CREDIT_CARD" →
        luhnCheck r.value = true) ∧
    luhnCheck "4111111111111111" = true ∧
    luhnCheck "4111111111111112" = false ∧
    ((detectPii [] "4111111111111111").filter
      (fun r => r.type == "CREDIT_CARD")).length = 1 ∧
    (detectPii [] "4111111111111112").filter
      (fun r => r.type == "CREDIT_CARD") = [] := by
  refine ⟨?_, by decide, by decide, by decide, by decide⟩
  intro customs text hcustoms r hr htype
  have hraw := detectPii_subset_raw customs text r hr
  rcases List.mem_append.mp hraw with h | h
  · simp only [builtinResults, List.mem_flatMap] at h
    obtain ⟨p, hp, hr'⟩ := h
    simp only [List.mem_filterMap] at hr'
    obtain ⟨m, hm, hg⟩ := hr'
    simp only [BUILT_IN_PATTERNS, List.mem_cons, List.mem_singleton,
      List.not_mem_nil, or_false] at hp
    rcases hp with rfl | rfl | rfl | rfl | rfl | rfl
    · -- CREDIT_CARD: the validator is the Luhn check
      simp only at hg
      split_ifs at hg with hval
      injection hg with hg
      subst hg
      exact hval
    all_goals
      simp only at hg
      injection hg with hg
      subst hg
      simp at htype
  · simp only [customResults, List.mem_flatMap] at h
    obtain ⟨cp, hcp, hr'⟩ := h
    cases hpat : cp.pattern with
    | none => rw [hpat] at hr'; simp at hr'
    | some rx =>
      rw [hpat] at hr'
      simp only [List.mem_map] at hr'
      obtain ⟨m, hm, hg⟩ := hr'
      subst hg
      exact absurd htype (hcustoms cp hcp)

/-- C1 witness: the general theorem applied to the Luhn-valid example
text with no custom rules. -/
theorem detectPii_luhn_spec_witness :
    luhnCheck ccSample.value = true :=
  detectPii_luhn_spec.1 [] "4111111111111111" (by simp) ccSample
    (by decide) rfl

/-! ## C3: a malformed custom rule is skipped, nothing else changes -/

/-- C3.  For every text and active custom-rule set, a custom rule whose
expression fails to compile contributes nothing and aborts nothing:
`detectPii` (a total function — no error reaches the caller) returns
exactly the matches of the built-in rules and of the remaining
well-formed custom rules, as if the malformed rule were not present. -/
theorem detectPii_malformed_custom_spec :
    ∀ (text : String) (pre post : List CustomPattern) (bad : CustomPattern),
      bad.pattern = none →
      detectPii (pre ++ bad :: post) text = detectPii (pre ++ post) text := by
  intro text pre post bad hbad
  unfold detectPii
  split_ifs with h
  · rfl
  · have hcust : customResults (pre ++ bad :: post) text =
        customResults (pre ++ post) text := by
      simp [customResults, List.flatMap_append, List.flatMap_cons, hbad]
    rw [hcust]

/-- C3 witness: a malformed rule ahead of a well-formed rule is simply
skipped on a concrete text. -/
theorem detectPii_malformed_custom_spec_witness :
    detectPii [badCustomPattern, goodCustomPattern] "EMP-123456" =
      detectPii [goodCustomPattern] "EMP-123456" :=
  detectPii_malformed_custom_spec "EMP-123456" [] [goodCustomPattern]
    badCustomPattern rfl

end PasteProof
